import Mathlib

/-!
Verification of the `memory_systems` package (manager.py, consolidation.py,
retrieval.py, efficiency.py): a shallow embedding of the bounded,
value-scored memory store, its scorer, consolidator, retriever and
efficiency optimizer, together with theorems settling the specification
claims about capacity enforcement, score bounds, consolidation grouping,
merging, pruning, retrieval diversity and retrieval-efficiency scoring.

Numbers are modelled by `ℚ` (Python floats, exact arithmetic), Python
dicts by insertion-ordered association lists with unique keys, and
Python's `sorted` by `List.insertionSort`.  The two transcendental
computations (`math.exp` in the retriever's recency decay, the
`math.log` expression in its frequency factor) are abstracted as
function parameters `fexp`, `flog`; no claim depends on their values.
-/

namespace MemSys

/-! ### Python string primitives -/

/-- `listSubstr n h` is Python's `n in h` on character lists. -/
def listSubstr (n : List Char) : List Char → Bool
  | [] => n.isPrefixOf []
  | c :: t => n.isPrefixOf (c :: t) || listSubstr n t

/-- Python's substring test `needle in hay`. -/
def substrB (needle hay : String) : Bool :=
  listSubstr needle.toList hay.toList

/-- Python's `str.lower()` (per-character, as for ASCII content). -/
def pyLower (s : String) : String :=
  String.mk (s.toList.map Char.toLower)

/-- Worker for `pyWords`: split on whitespace runs, dropping empty pieces;
`cur` holds the current word reversed. -/
def wordsGo : List Char → List Char → List String
  | [], cur => if cur.isEmpty then [] else [String.mk cur.reverse]
  | c :: rest, cur =>
    if c.isWhitespace then
      (if cur.isEmpty then [] else [String.mk cur.reverse]) ++ wordsGo rest []
    else
      wordsGo rest (c :: cur)

/-- Python's `str.split()` with no argument. -/
def pyWords (s : String) : List String := wordsGo s.toList []

/-- Python's `str.split('.')`: split on `'.'`, keeping empty pieces;
`cur` holds the current piece reversed. -/
def splitDotGo : List Char → List Char → List String
  | [], cur => [String.mk cur.reverse]
  | c :: rest, cur =>
    if c = '.' then String.mk cur.reverse :: splitDotGo rest []
    else splitDotGo rest (c :: cur)

/-- Python's `content.split('.')`. -/
def pySplitDot (s : String) : List String := splitDotGo s.toList []

/-- Python's `str.strip()` (whitespace, both ends). -/
def pyStrip (s : String) : String :=
  String.mk (((s.toList.dropWhile Char.isWhitespace).reverse.dropWhile
    Char.isWhitespace).reverse)

/-! ### Data model (manager.py `MemoryItem`, the relevant config fields) -/

/-- manager.py `MemoryItem`.  `context` values are modelled as strings
(the retriever only compares them by equality / lower-cased substring). -/
structure MemoryItem where
  id : String
  content : String
  context : List (String × String)
  reasoning_value : ℚ
  timestamp : ℚ
  access_count : ℕ
  last_accessed : ℚ
  deriving DecidableEq, Repr

/-- The configuration fields the memory subsystem reads. -/
structure Config where
  memory_budget : ℕ
  efficiency_target : ℚ
  deriving DecidableEq, Repr

/-- A Python dict `str -> MemoryItem`, as an insertion-ordered association
list with unique keys. -/
abbrev Store := List (String × MemoryItem)

/-- Keys of the store, in insertion order. -/
def dictKeys (d : Store) : List String := d.map Prod.fst

/-- Python dict assignment `d[k] = v`: replace in place if the key exists,
else append at the end. -/
def dictInsert (d : Store) (k : String) (v : MemoryItem) : Store :=
  if d.any (fun p => p.1 = k) then
    d.map (fun p => if p.1 = k then (k, v) else p)
  else
    d ++ [(k, v)]

/-! ### Scorer (manager.py `_assess_reasoning_value`) -/

/-- The fixed reasoning-indicator vocabulary of `_assess_reasoning_value`. -/
def reasoning_indicators : List String :=
  ["analysis", "conclusion", "insight", "pattern", "relationship",
   "because", "therefore", "thus", "consequently", "implies"]

/-- Number of reasoning indicators occurring in the content
(`indicator.lower() in content_str.lower()`). -/
def indicatorCount (content : String) : ℕ :=
  (reasoning_indicators.filter
    (fun ind => substrB (pyLower ind) (pyLower content))).length

/-- manager.py `MemoryManager._assess_reasoning_value`. -/
def assess_reasoning_value (content : String) (base_priority : ℚ) : ℚ :=
  let indicator_count : ℚ := (indicatorCount content : ℚ)
  let length_factor : ℚ := min 1 ((content.length : ℚ) / 500)
  let recency_factor : ℚ := 1
  let reasoning_value := base_priority *
    (4/10 * (indicator_count / (reasoning_indicators.length : ℚ)) +
     3/10 * length_factor +
     3/10 * recency_factor)
  min 1 reasoning_value

/-! ### Efficiency (efficiency.py `calculate_retrieval_efficiency`) -/

/-- efficiency.py `EfficiencyOptimizer.calculate_retrieval_efficiency`
(the returned score; the history append does not affect it). -/
def calculate_retrieval_efficiency (retrieved_count total_memories : ℕ) : ℚ :=
  if total_memories = 0 then 1
  else
    let retrieval_ratio : ℚ := (retrieved_count : ℚ) / (total_memories : ℚ)
    let base_efficiency : ℚ := 1 - min (9/10) retrieval_ratio
    let targeting_bonus : ℚ :=
      if 5/100 ≤ retrieval_ratio ∧ retrieval_ratio ≤ 2/10 then 2/10
      else if retrieval_ratio < 5/100 then
        -(1/10) * (5/100 - retrieval_ratio) / (5/100)
      else
        -(1/10) * (retrieval_ratio - 2/10) / (1 - 2/10)
    min 1 (base_efficiency + targeting_bonus)

/-! ### Sorting by reasoning value (Python's `sorted(..., key=reasoning_value)`) -/

/-- Comparison used by budget eviction and pruning: ascending reasoning value. -/
def valLE (p q : String × MemoryItem) : Prop :=
  p.2.reasoning_value ≤ q.2.reasoning_value

instance : DecidableRel valLE :=
  fun p q => inferInstanceAs (Decidable (p.2.reasoning_value ≤ q.2.reasoning_value))

instance : IsTotal (String × MemoryItem) valLE :=
  ⟨fun p q => le_total p.2.reasoning_value q.2.reasoning_value⟩

instance : IsTrans (String × MemoryItem) valLE :=
  ⟨fun _ _ _ h h2 => le_trans h h2⟩

/-! ### Consolidator (consolidation.py) -/

/-- The stop-word list of `_extract_key_terms`. -/
def stop_words : List String :=
  ["the", "a", "an", "and", "or", "but", "in", "on", "at", "to", "for",
   "of", "with", "by"]

/-- consolidation.py `MemoryConsolidator._extract_key_terms`: words of the
lower-cased content longer than 3 characters and not stop words, first 10
(duplicates kept, as in the source). -/
def extract_key_terms (content : String) : List String :=
  let words := pyWords (pyLower content)
  (words.filter
    (fun w => decide (3 < w.length) && !(stop_words.contains w))).take 10

/-- Append `v` to the entry of `k` in an insertion-ordered multimap
(Python `defaultdict(list)` under `d[k].append(v)`). -/
def multiDictAdd (d : List (String × List String)) (k v : String) :
    List (String × List String) :=
  if d.any (fun p => p.1 = k) then
    d.map (fun p => if p.1 = k then (p.1, p.2 ++ [v]) else p)
  else
    d ++ [(k, [v])]

/-- The `topic_clusters` pattern of `_analyze_memory_patterns`: for each
item (in dict order) and each of its key terms (in order), the item id is
appended to the term's cluster. -/
def topic_clusters (items : Store) : List (String × List String) :=
  items.foldl
    (fun acc p =>
      (extract_key_terms p.2.content).foldl
        (fun a term => multiDictAdd a term p.1) acc)
    []

/-- consolidation.py `MemoryConsolidator._classify_reasoning_type`. -/
def classify_reasoning_type (content : String) : String :=
  let c := pyLower content
  if ["analysis", "analyze"].any (fun w => substrB w c) then "analytical"
  else if ["conclusion", "therefore", "thus"].any (fun w => substrB w c) then
    "deductive"
  else if ["because", "since", "cause"].any (fun w => substrB w c) then "causal"
  else if ["pattern", "trend", "relationship"].any (fun w => substrB w c) then
    "pattern_recognition"
  else "general"

/-- consolidation.py `MemoryConsolidator._identify_reasoning_chains`:
group ids by reasoning type (insertion-ordered), keep groups of size ≥ 2. -/
def identify_reasoning_chains (items : Store) : List (List String) :=
  let groups := items.foldl
    (fun acc p => multiDictAdd acc (classify_reasoning_type p.2.content) p.1) []
  (groups.filter (fun g => 2 ≤ g.2.length)).map Prod.snd

/-- One step of `_identify_consolidation_groups`: a candidate id list of
raw size ≥ `need` contributes its members not yet in `processed_memories`
(`st.2`) provided at least 2 remain; contributed members are marked
processed. -/
def claimStep (need : ℕ) (st : List (List String) × List String)
    (cand : List String) : List (List String) × List String :=
  if need ≤ cand.length then
    let avail := cand.filter (fun mid => !(st.2.contains mid))
    if 2 ≤ avail.length then (st.1 ++ [avail], st.2 ++ avail) else st
  else st

/-- consolidation.py `MemoryConsolidator._identify_consolidation_groups`:
fold over topic clusters (in insertion order of terms, raw size ≥ 3) then
reasoning chains (size ≥ 2), tracking `processed_memories`. -/
def identify_consolidation_groups (clusters : List (String × List String))
    (chains : List (List String)) : List (List String) :=
  let step1 := clusters.foldl (fun st tc => claimStep 3 st tc.2) ([], [])
  let step2 := chains.foldl (fun st chain => claimStep 2 st chain) step1
  step2.1

/-- Comparison by descending cluster size. -/
def sizeGE (a b : String × List String) : Prop := b.2.length ≤ a.2.length

instance : DecidableRel sizeGE :=
  fun a b => inferInstanceAs (Decidable (b.2.length ≤ a.2.length))

instance : IsTotal (String × List String) sizeGE :=
  ⟨fun a b => le_total b.2.length a.2.length⟩

instance : IsTrans (String × List String) sizeGE :=
  ⟨fun _ _ _ h h2 => le_trans h2 h⟩

/-- Modelled from the claim's words, for comparison with the source
function: topic clusters are processed in descending cluster size, and a
cluster qualifies for merging only if it still has at least 3 candidate
members after removing items claimed by an earlier cluster. -/
def identify_consolidation_groups_spec (clusters : List (String × List String))
    (chains : List (List String)) : List (List String) :=
  let ordered := clusters.insertionSort sizeGE
  let step1 := ordered.foldl
    (fun (st : List (List String) × List String) tc =>
      let avail := tc.2.filter (fun mid => !(st.2.contains mid))
      if 3 ≤ avail.length then (st.1 ++ [avail], st.2 ++ avail) else st)
    ([], [])
  let step2 := chains.foldl (fun st chain => claimStep 2 st chain) step1
  step2.1

/-- The indicator list used by `_synthesize_content`. -/
def synthesis_indicators : List String :=
  ["analysis", "conclusion", "insight", "therefore", "because"]

/-- The `key_points` computed by `_synthesize_content`: sentences containing
a synthesis indicator, else each member's first sentence. -/
def key_points_of (content_list : List String) : List String :=
  let kp := content_list.foldl
    (fun acc content =>
      acc ++ ((pySplitDot content).filter
        (fun s => synthesis_indicators.any
          (fun ind => substrB ind (pyLower s)))).map pyStrip)
    []
  if kp.isEmpty then
    (content_list.filter (fun c => pyStrip c ≠ "")).map
      (fun c => (pySplitDot c).headD "")
  else kp

/-- consolidation.py `MemoryConsolidator._synthesize_content`. -/
def synthesize_content (content_list : List String) : String :=
  let key_points := key_points_of content_list
  let body := String.join
    (((key_points.take 5).enumFrom 1).map
      (fun pi => toString pi.1 ++ ". " ++ pi.2 ++ "\n"))
  "CONSOLIDATED INSIGHT:\n\nKey findings:\n" ++ body ++
    "\nBased on " ++ toString content_list.length ++ " related memory items."

/-- consolidation.py `MemoryConsolidator._consolidate_group`. -/
def consolidate_group (memories : List MemoryItem) : MemoryItem :=
  let combined_content := memories.map (fun m => m.content)
  let combined_reasoning_value := (memories.map (fun m => m.reasoning_value)).sum
  let max_timestamp := (memories.map (fun m => m.timestamp)).foldl max 0
  let total_access_count := (memories.map (fun m => m.access_count)).sum
  { id := "consolidated_" ++ toString max_timestamp
    content := synthesize_content combined_content
    context := []
    reasoning_value := min 1 (combined_reasoning_value / (memories.length : ℚ) * (12/10))
    timestamp := max_timestamp
    access_count := total_access_count
    last_accessed := 0 }

/-- Python `memory_items[mid]` as an option lookup (in the source the ids
always come from the dict, so the lookup never fails). -/
def lookupItem (items : Store) (k : String) : Option MemoryItem :=
  (items.find? (fun p => p.1 = k)).map Prod.snd

/-- consolidation.py `MemoryConsolidator._perform_consolidation`: for each
group of ≥ 2 ids, delete the members and insert the merged item under key
`consolidated_<current size>`. -/
def perform_consolidation (memory_items : Store)
    (groups : List (List String)) : Store :=
  groups.foldl
    (fun acc group =>
      if group.length < 2 then acc
      else
        let merged := consolidate_group (group.filterMap (lookupItem memory_items))
        let acc2 := acc.filter (fun p => !(group.contains p.1))
        dictInsert acc2 ("consolidated_" ++ toString acc2.length) merged)
    memory_items

/-- Python dict assignment for the insights dict. -/
def strDictInsert (d : List (String × String)) (k v : String) :
    List (String × String) :=
  if d.any (fun p => p.1 = k) then
    d.map (fun p => if p.1 = k then (p.1, v) else p)
  else
    d ++ [(k, v)]

/-- Python slice `s[:100]`. -/
def pyTake100 (s : String) : String := String.mk (s.toList.take 100)

/-- consolidation.py `MemoryConsolidator._extract_insights`. -/
def extract_insights (consolidated : Store)
    (clusters : List (String × List String)) (chains : List (List String)) :
    List (String × String) :=
  let i1 := clusters.foldl
    (fun acc tc =>
      if 2 ≤ tc.2.length then
        strDictInsert acc ("topic_insight_" ++ tc.1)
          ("Pattern identified in " ++ tc.1 ++ ": " ++
            toString tc.2.length ++
            " related memories suggest recurring themes in this domain.")
      else acc)
    []
  let i2 := (chains.enum).foldl
    (fun acc ic =>
      if 2 ≤ ic.2.length then
        strDictInsert acc ("chain_insight_" ++ toString ic.1)
          ("Reasoning chain " ++ toString (ic.1 + 1) ++ ": " ++
            toString ic.2.length ++ " memories show connected logical progression.")
      else acc)
    i1
  consolidated.foldl
    (fun acc p =>
      if 8/10 < p.2.reasoning_value then
        strDictInsert acc ("memory_insight_" ++ p.1)
          ("High-value insight from " ++ p.1 ++ ": " ++
            pyTake100 p.2.content ++ "...")
      else acc)
    i2

/-- consolidation.py `MemoryConsolidator._calculate_current_efficiency`. -/
def calculate_current_efficiency (memories : Store) : ℚ :=
  if memories.isEmpty then 1
  else ((memories.map (fun p => p.2.reasoning_value)).sum) / (memories.length : ℚ)

/-- Python `int(q)`: truncation toward zero. -/
def pyInt (q : ℚ) : ℤ :=
  if q < 0 then -⌊-q⌋ else ⌊q⌋

/-- consolidation.py `MemoryConsolidator._prune_low_value_memories`.
Returns the kept store and the reported pruned count. -/
def prune_low_value_memories (memories : Store) (efficiency_target : ℚ) :
    Store × ℤ :=
  let current_efficiency := calculate_current_efficiency memories
  if efficiency_target ≤ current_efficiency then (memories, 0)
  else
    let sorted_memories := memories.insertionSort valLE
    let target_count : ℤ := pyInt ((memories.length : ℚ) * efficiency_target)
    let pruned_count : ℤ := (memories.length : ℤ) - target_count
    let kept :=
      if 0 < target_count then
        sorted_memories.drop (sorted_memories.length - target_count.toNat)
      else []
    (kept, pruned_count)

/-- consolidation.py `MemoryConsolidator._calculate_efficiency_improvement`. -/
def calculate_efficiency_improvement (original_count final_count : ℕ) : ℚ :=
  if original_count = 0 then 1
  else
    let reduction_ratio := ((original_count : ℚ) - (final_count : ℚ)) / (original_count : ℚ)
    min 1 (1/2 + reduction_ratio)

/-- The record returned by `consolidate_memories`. -/
structure ConsolidationOutcome where
  updated_memories : Store
  insights : List (String × String)
  efficiency_score : ℚ
  memories_consolidated : ℕ
  memories_pruned : ℤ
  deriving Repr

/-- consolidation.py `MemoryConsolidator.consolidate_memories`. -/
def consolidate_memories (memory_items : Store) (efficiency_target : ℚ) :
    ConsolidationOutcome :=
  if memory_items.isEmpty then
    { updated_memories := []
      insights := []
      efficiency_score := 1
      memories_consolidated := 0
      memories_pruned := 0 }
  else
    let clusters := topic_clusters memory_items
    let chains := identify_reasoning_chains memory_items
    let groups := identify_consolidation_groups clusters chains
    let consolidated := perform_consolidation memory_items groups
    let insights := extract_insights consolidated clusters chains
    let pruneRes := prune_low_value_memories consolidated efficiency_target
    { updated_memories := pruneRes.1
      insights := insights
      efficiency_score :=
        calculate_efficiency_improvement memory_items.length pruneRes.1.length
      memories_consolidated := groups.length
      memories_pruned := pruneRes.2 }

/-! ### Retriever (retrieval.py) -/

/-- Python `set(s.lower().split())`, as a deduplicated token list. -/
def tokenSet (s : String) : List String := (pyWords (pyLower s)).dedup

/-- retrieval.py `MemoryRetriever._calculate_semantic_similarity`:
Jaccard similarity of the token sets plus a bonus of up to 0.3 for the
query's tokens longer than 4 characters found in the content.  Note the
function is asymmetric in its two arguments (the bonus is computed from
the first argument's long tokens only). -/
def semantic_similarity (query content : String) : ℚ :=
  let query_tokens := tokenSet query
  let content_tokens := tokenSet content
  if query_tokens.isEmpty || content_tokens.isEmpty then 0
  else
    let inter := (query_tokens.filter (fun t => content_tokens.contains t)).length
    let union := (query_tokens ++
      content_tokens.filter (fun t => !(query_tokens.contains t))).length
    let jaccard : ℚ := if 0 < union then (inter : ℚ) / (union : ℚ) else 0
    let important_terms := query_tokens.filter (fun t => decide (4 < t.length))
    let important_matches :=
      (important_terms.filter (fun t => content_tokens.contains t)).length
    let importance_boost : ℚ :=
      if important_terms.isEmpty then 0
      else (important_matches : ℚ) / (important_terms.length : ℚ) * (3/10)
    min 1 (jaccard + importance_boost)

/-- Lookup in an item's context mapping. -/
def lookupCtx (ctx : List (String × String)) (k : String) : Option String :=
  (ctx.find? (fun p => p.1 = k)).map Prod.snd

/-- retrieval.py `MemoryRetriever._calculate_context_relevance`. -/
def calculate_context_relevance (context : List (String × String))
    (memory : MemoryItem) : ℚ :=
  if context.isEmpty then 0
  else
    let scores := context.map (fun kv =>
      match lookupCtx memory.context kv.1 with
      | none => (0 : ℚ)
      | some mv =>
        if mv = kv.2 then 1
        else if substrB (pyLower kv.2) (pyLower mv) then 1/2
        else 0)
    scores.sum / (context.length : ℚ)

/-- retrieval.py `MemoryRetriever._calculate_recency_factor`; `fexp`
abstracts `math.exp`. -/
def calculate_recency_factor (fexp : ℚ → ℚ) (now : ℚ) (memory : MemoryItem) : ℚ :=
  let memory_age := now - memory.timestamp
  let decay_threshold : ℚ := 24 * 3600
  if memory_age < decay_threshold then 1
  else max (1/10) (fexp (-(1/10) * (memory_age - decay_threshold) / 3600))

/-- retrieval.py `MemoryRetriever._calculate_frequency_factor`; `flog`
abstracts `log(1 + x * e) / log(1 + e)` applied to the normalized count. -/
def calculate_frequency_factor (flog : ℚ → ℚ) (memory : MemoryItem) : ℚ :=
  let normalized_frequency : ℚ := min 1 ((memory.access_count : ℚ) / 10)
  if 0 < memory.access_count then flog normalized_frequency else 0

/-- retrieval.py `MemoryRetriever._calculate_comprehensive_relevance`. -/
def calculate_comprehensive_relevance (fexp flog : ℚ → ℚ) (now : ℚ)
    (query : String) (context : List (String × String)) (memory : MemoryItem) : ℚ :=
  min 1 (semantic_similarity query memory.content * (4/10) +
    calculate_context_relevance context memory * (25/100) +
    memory.reasoning_value * (2/10) +
    calculate_recency_factor fexp now memory * (15/100) +
    calculate_frequency_factor flog memory * (1/10))

/-- A scored candidate: the dict entry together with its relevance score
(the entry's key records Python object identity for the access-count
update in the manager). -/
abbrev Scored := (String × MemoryItem) × ℚ

/-- Comparison for `scored_memories.sort(key=lambda x: x[1], reverse=True)`:
descending score. -/
def scoreGE (a b : Scored) : Prop := b.2 ≤ a.2

instance : DecidableRel scoreGE :=
  fun a b => inferInstanceAs (Decidable (b.2 ≤ a.2))

instance : IsTotal Scored scoreGE := ⟨fun a b => le_total b.2 a.2⟩

instance : IsTrans Scored scoreGE := ⟨fun _ _ _ h h2 => le_trans h2 h⟩

/-- retrieval.py `MemoryRetriever._apply_diversity_filter` with its default
threshold 0.8: greedily accept a candidate iff its semantic similarity
(candidate first, already-selected second) to every accepted candidate is
not above the threshold. -/
def apply_diversity_filter (memories : List Scored) : List Scored :=
  if memories.length ≤ 1 then memories
  else
    memories.foldl
      (fun diverse ms =>
        if diverse.all (fun sel =>
            !(decide ((4/5 : ℚ) < semantic_similarity ms.1.2.content sel.1.2.content)))
        then diverse ++ [ms] else diverse)
      []

/-- retrieval.py `MemoryRetriever._apply_retrieval_filters`: minimum
relevance 0.1, then the diversity filter (`_apply_context_filters` is the
identity in the source). -/
def apply_retrieval_filters (scored : List Scored) : List Scored :=
  let filtered := scored.filter (fun ms => decide ((1/10 : ℚ) ≤ ms.2))
  apply_diversity_filter filtered

/-- retrieval.py `MemoryRetriever.retrieve_memories`, kept at the level of
scored dict entries: score every item, sort by descending score, filter,
and take the first `max_results`. -/
def retrieve_entries (fexp flog : ℚ → ℚ) (now : ℚ) (query : String)
    (context : List (String × String)) (memory_items : Store)
    (max_results : ℕ) : List Scored :=
  if memory_items.isEmpty then []
  else
    let scored := memory_items.map (fun p =>
      (p, calculate_comprehensive_relevance fexp flog now query context p.2))
    let sorted := scored.insertionSort scoreGE
    (apply_retrieval_filters sorted).take max_results

/-- The value returned by retrieval.py `MemoryRetriever.retrieve_memories`:
the relevant memory items, most relevant first. -/
def retrieve_memories (fexp flog : ℚ → ℚ) (now : ℚ) (query : String)
    (context : List (String × String)) (memory_items : Store)
    (max_results : ℕ) : List MemoryItem :=
  (retrieve_entries fexp flog now query context memory_items max_results).map
    (fun e => e.1.2)

/-! ### Store / manager operations (manager.py `MemoryManager`) -/

/-- manager.py `MemoryManager._enforce_memory_budget`: when over budget,
delete the `count - budget` lowest-reasoning-value entries. -/
def enforce_memory_budget (cfg : Config) (s : Store) : Store :=
  if s.length ≤ cfg.memory_budget then s
  else
    let sorted_memories := s.insertionSort valLE
    let toRemove :=
      (sorted_memories.take (s.length - cfg.memory_budget)).map Prod.fst
    s.filter (fun p => !(toRemove.contains p.1))

/-- manager.py `MemoryManager.store_memory`: score, insert under `key`,
enforce the budget if exceeded, return the key. -/
def store_memory (cfg : Config) (s : Store) (key content : String)
    (priority : ℚ) (now : ℚ) : Store × String :=
  let reasoning_value := assess_reasoning_value content priority
  let memory_item : MemoryItem :=
    { id := key
      content := content
      context := []
      reasoning_value := reasoning_value
      timestamp := now
      access_count := 0
      last_accessed := 0 }
  let s1 := dictInsert s key memory_item
  let s2 := if cfg.memory_budget < s1.length then enforce_memory_budget cfg s1 else s1
  (s2, key)

/-- manager.py `MemoryManager.retrieve_relevant_memories`, restricted to
its effect on the store: every returned item's `access_count` is
incremented and its `last_accessed` set to the current time. -/
def retrieve_relevant_memories (fexp flog : ℚ → ℚ) (now : ℚ) (query : String)
    (context : List (String × String)) (s : Store) (max_results : ℕ) : Store :=
  let entries := retrieve_entries fexp flog now query context s max_results
  let touched := entries.map (fun e => e.1.1)
  s.map (fun p =>
    if touched.contains p.1 then
      (p.1, { p.2 with access_count := p.2.access_count + 1, last_accessed := now })
    else p)

/-- One public operation against the manager. -/
inductive Op where
  | put (key content : String) (priority : ℚ) (now : ℚ)
  | consolidate
  | retrieve (query : String) (context : List (String × String))
      (max_results : ℕ) (now : ℚ)
  | reset
  deriving Repr

/-- The store after one operation (manager.py `store_memory`,
`consolidate_memory`, `retrieve_relevant_memories`, `reset`). -/
def step (cfg : Config) (fexp flog : ℚ → ℚ) (s : Store) : Op → Store
  | .put key content priority now => (store_memory cfg s key content priority now).1
  | .consolidate => (consolidate_memories s cfg.efficiency_target).updated_memories
  | .retrieve query ctx max_results now =>
    retrieve_relevant_memories fexp flog now query ctx s max_results
  | .reset => []

/-- The store after a sequence of operations from a fresh manager. -/
def run (cfg : Config) (fexp flog : ℚ → ℚ) (ops : List Op) : Store :=
  ops.foldl (step cfg fexp flog) []

/-! ### Predicates used to state the claims -/

/-- The average of the reasoning values of a group of source items. -/
def avgReasoningValue (memories : List MemoryItem) : ℚ :=
  (memories.map (fun m => m.reasoning_value)).sum / (memories.length : ℚ)

/-- The maximum of the reasoning values of a nonempty group `m :: ms`. -/
def maxReasoningValue (m : MemoryItem) (ms : List MemoryItem) : ℚ :=
  (ms.map (fun x => x.reasoning_value)).foldl max m.reasoning_value

/-- Every item in the store has its reasoning value in `[0, 1]`. -/
def ValBound (s : Store) : Prop :=
  ∀ p ∈ s, 0 ≤ p.2.reasoning_value ∧ p.2.reasoning_value ≤ 1

/-- The operation, if a `put`, carries a priority in `[0, 1]`. -/
def validPut : Op → Prop
  | .put _ _ priority _ => 0 ≤ priority ∧ priority ≤ 1
  | _ => True

/-- Two id groups share no member. -/
def GroupsDisjoint (g g' : List String) : Prop := ∀ x ∈ g, x ∉ g'

/-- The C9 claim about `calculate_retrieval_efficiency` on a nonzero total:
the result is in `[0, 1]` and equals the clamped base-plus-targeting-bonus
formula in each of the three ratio regimes. -/
def EffSpec (retrieved_count total_memories : ℕ) : Prop :=
  let ρ : ℚ := (retrieved_count : ℚ) / (total_memories : ℚ)
  let base : ℚ := 1 - min (9/10) ρ
  let eff := calculate_retrieval_efficiency retrieved_count total_memories
  (0 ≤ eff ∧ eff ≤ 1) ∧
  (5/100 ≤ ρ ∧ ρ ≤ 2/10 → eff = min 1 (base + 2/10)) ∧
  (ρ < 5/100 → eff = min 1 (base - (1/10) * ((5/100 - ρ) / (5/100)))) ∧
  (2/10 < ρ → eff = min 1 (base - (1/10) * ((ρ - 2/10) / (1 - 2/10))))

/-! ## Theorems for the claims -/

/-- C10: calling `calculate_retrieval_efficiency` with `total_memories = 0`
returns exactly `1.0` for every retrieved count — the zero-total case is
guarded before the ratio is computed, so no division by zero occurs. -/
theorem claim_C10 (retrieved_count : ℕ) :
    calculate_retrieval_efficiency retrieved_count 0 = 1 := by
  simp [calculate_retrieval_efficiency]

/-- C9: for `0 ≤ retrieved ≤ total` with `total > 0`,
`calculate_retrieval_efficiency` returns the base efficiency
`1 - min(0.9, ratio)` plus a `+0.2` targeting bonus inside the optimal
band `[0.05, 0.2]` and a proportional penalty toward the nearest bound
outside it, clamped so that the result always lies in `[0, 1]`; and the
scenario values: retrieving 1 of 20 scores `1` (high range) while
retrieving 18 of 20 scores `1/80` (near the floor). -/
theorem claim_C9 (retrieved_count total_memories : ℕ)
    (h : retrieved_count ≤ total_memories) (ht : 0 < total_memories) :
    EffSpec retrieved_count total_memories ∧
      calculate_retrieval_efficiency 1 20 = 1 ∧
      calculate_retrieval_efficiency 18 20 = 1/80 := by
  have ht0 : total_memories ≠ 0 := Nat.pos_iff_ne_zero.mp ht
  have htQ : (0 : ℚ) < (total_memories : ℚ) := by exact_mod_cast ht
  set ρ : ℚ := (retrieved_count : ℚ) / (total_memories : ℚ) with hρ
  have hρ0 : 0 ≤ ρ := by positivity
  have hρ1 : ρ ≤ 1 := by
    rw [hρ, div_le_one htQ]
    exact_mod_cast h
  have heff : calculate_retrieval_efficiency retrieved_count total_memories =
      min 1 ((1 - min (9/10) ρ) +
        (if 5/100 ≤ ρ ∧ ρ ≤ 2/10 then 2/10
         else if ρ < 5/100 then -(1/10) * (5/100 - ρ) / (5/100)
         else -(1/10) * (ρ - 2/10) / (1 - 2/10))) := by
    simp only [calculate_retrieval_efficiency, ht0, if_false, ← hρ]
  refine ⟨⟨⟨?_, ?_⟩, ?_, ?_, ?_⟩, ?_, ?_⟩
  · -- 0 ≤ eff
    rw [heff]
    refine le_min (by norm_num) ?_
    have hd1 : -(1/10 : ℚ) * (5/100 - ρ) / (5/100) = 2 * ρ - 1/10 := by ring
    have hd2 : -(1/10 : ℚ) * (ρ - 2/10) / (1 - 2/10) = -(1/8) * ρ + 1/40 := by
      ring
    rcases min_cases (9/10 : ℚ) ρ with ⟨hm, hle⟩ | ⟨hm, hlt⟩ <;>
      rw [hm] <;> split_ifs with h1 h2 <;>
      first
        | linarith [h1.1, h1.2]
        | linarith
  · -- eff ≤ 1
    rw [heff]; exact min_le_left _ _
  · intro hband
    rw [heff, if_pos hband]
  · intro hlow
    have : ¬ (5/100 ≤ ρ ∧ ρ ≤ 2/10) := by intro hc; linarith [hc.1]
    rw [heff, if_neg this, if_pos hlow]
    ring_nf
  · intro hhigh
    have h1 : ¬ (5/100 ≤ ρ ∧ ρ ≤ 2/10) := by intro hc; linarith [hc.2]
    have h2 : ¬ (ρ < 5/100) := by linarith
    rw [heff, if_neg h1, if_neg h2]
    ring_nf
  · norm_num [calculate_retrieval_efficiency, min_def]
  · norm_num [calculate_retrieval_efficiency, min_def]

/-- Witness for C9 at `retrieved = 1`, `total = 20`. -/
theorem claim_C9_witness :
    ((1 ≤ 20) ∧ (0 < 20)) ∧
      (EffSpec 1 20 ∧ calculate_retrieval_efficiency 1 20 = 1 ∧
        calculate_retrieval_efficiency 18 20 = 1/80) :=
  ⟨⟨by decide, by decide⟩, claim_C9 1 20 (by decide) (by decide)⟩

/-- The scorer's output is in `[0, 1]` whenever the base priority is. -/
theorem assess_bounds (content : String) (p : ℚ) (h0 : 0 ≤ p) :
    0 ≤ assess_reasoning_value content p ∧ assess_reasoning_value content p ≤ 1 := by
  unfold assess_reasoning_value
  constructor
  · refine le_min (by norm_num) ?_
    have h1 : (0 : ℚ) ≤ (indicatorCount content : ℚ) := Nat.cast_nonneg _
    have h2 : (0 : ℚ) ≤ min 1 ((content.length : ℚ) / 500) :=
      le_min zero_le_one (by positivity)
    have h3 : (0 : ℚ) ≤ (reasoning_indicators.length : ℚ) := Nat.cast_nonneg _
    have h4 : (0 : ℚ) ≤ (indicatorCount content : ℚ) / (reasoning_indicators.length : ℚ) :=
      div_nonneg h1 h3
    nlinarith
  · exact min_le_left _ _

/-- Counterexample to C3 as stated: on empty content with base priority 1
the scorer returns `3/10`, not `0` (the recency factor contributes even
when the content is empty). -/
theorem claim_C3_counterexample :
    assess_reasoning_value "" 1 = 3/10 ∧ (3/10 : ℚ) ≠ 0 := by
  constructor
  · have h : indicatorCount "" = 0 := by decide
    have h2 : ("" : String).length = 0 := by decide
    norm_num [assess_reasoning_value, h, h2, reasoning_indicators, min_def]
  · norm_num

/-- C3 (amended): for any content and `base_priority ∈ [0, 1]` the scorer
returns `base_priority * (0.4·(indicators/10) + 0.3·min(1, len/500) +
0.3·1)` capped at 1, the result lies in `[0, 1]`, and empty content yields
`0.3 · base_priority` (zero only when the base priority is zero). -/
theorem claim_C3 (content : String) (p : ℚ) (h0 : 0 ≤ p) (h1 : p ≤ 1) :
    assess_reasoning_value content p =
      min 1 (p * (4/10 * ((indicatorCount content : ℚ) / 10) +
        3/10 * min 1 ((content.length : ℚ) / 500) + 3/10 * 1)) ∧
    (0 ≤ assess_reasoning_value content p ∧
      assess_reasoning_value content p ≤ 1) ∧
    assess_reasoning_value "" p = 3/10 * p := by
  refine ⟨?_, assess_bounds content p h0, ?_⟩
  · norm_num [assess_reasoning_value, reasoning_indicators]
  · have h : indicatorCount "" = 0 := by decide
    have h2 : ("" : String).length = 0 := by decide
    have h3 : p * (3/10 : ℚ) ≤ 1 := by nlinarith
    norm_num [assess_reasoning_value, h, h2, reasoning_indicators]
    rw [min_eq_right (by linarith)]
    ring

/-- Witness for C3 at `content = "x"`, `base_priority = 1`. -/
theorem claim_C3_witness :
    ((0 : ℚ) ≤ 1 ∧ (1 : ℚ) ≤ 1) ∧
      (assess_reasoning_value "x" 1 =
        min 1 (1 * (4/10 * ((indicatorCount "x" : ℚ) / 10) +
          3/10 * min 1 (("x".length : ℚ) / 500) + 3/10 * 1)) ∧
      (0 ≤ assess_reasoning_value "x" 1 ∧ assess_reasoning_value "x" 1 ≤ 1) ∧
      assess_reasoning_value "" 1 = 3/10 * 1) :=
  ⟨⟨zero_le_one, le_refl 1⟩, claim_C3 "x" 1 zero_le_one (le_refl 1)⟩

/-- Inserting into a dict grows it by at most one entry. -/
theorem dictInsert_length_le (d : Store) (k : String) (v : MemoryItem) :
    (dictInsert d k v).length ≤ d.length + 1 := by
  unfold dictInsert
  split
  · simp
  · simp

/-- After `d[k] = v` the key `k` is present. -/
theorem mem_dictKeys_dictInsert (d : Store) (k : String) (v : MemoryItem) :
    k ∈ dictKeys (dictInsert d k v) := by
  unfold dictInsert dictKeys
  split
  · next h =>
    obtain ⟨p, hp, hpk⟩ := List.any_eq_true.mp h
    have hpk' : p.1 = k := of_decide_eq_true hpk
    refine List.mem_map.mpr ⟨(k, v), ?_, rfl⟩
    refine List.mem_map.mpr ⟨p, hp, ?_⟩
    simp [hpk']
  · simp

/-- Counterexample to C2 as stated: `store_memory` accepts empty content
(and an out-of-range priority) and inserts the item — no `InvalidInput`
error path exists in the code. -/
theorem claim_C2_counterexample :
    (store_memory ⟨10, 1/2⟩ [] "k1" "" 1 0).1.length = 1 ∧
    (store_memory ⟨10, 1/2⟩ [] "k2" "some content" (3/2) 0).1.length = 1 := by
  constructor <;> rfl

/-- C2 (amended): `store_memory` performs no input validation: for every
content (including the empty string) and every priority (including values
outside `[0, 1]`), when the store is below budget the call returns the
given key and the key is present in the live set afterwards. -/
theorem claim_C2 (cfg : Config) (s : Store) (key content : String)
    (priority now : ℚ) (h : s.length < cfg.memory_budget) :
    (store_memory cfg s key content priority now).2 = key ∧
    key ∈ dictKeys (store_memory cfg s key content priority now).1 := by
  refine ⟨rfl, ?_⟩
  unfold store_memory
  have hlen : (dictInsert s key
      { id := key, content := content, context := [],
        reasoning_value := assess_reasoning_value content priority,
        timestamp := now, access_count := 0, last_accessed := 0 }).length ≤
      s.length + 1 := dictInsert_length_le _ _ _
  have hnot : ¬ (cfg.memory_budget <
      (dictInsert s key
        { id := key, content := content, context := [],
          reasoning_value := assess_reasoning_value content priority,
          timestamp := now, access_count := 0, last_accessed := 0 }).length) := by
    omega
  simp only [hnot, if_false]
  exact mem_dictKeys_dictInsert _ _ _

/-- Witness for C2 on an empty store with budget 1, empty content and
out-of-range priority 2. -/
theorem claim_C2_witness :
    (([] : Store).length < (1 : ℕ)) ∧
      ((store_memory ⟨1, 1/2⟩ [] "k" "" 2 0).2 = "k" ∧
        "k" ∈ dictKeys (store_memory ⟨1, 1/2⟩ [] "k" "" 2 0).1) :=
  ⟨by decide, claim_C2 ⟨1, 1/2⟩ [] "k" "" 2 0 (by decide)⟩

/-- `pyInt` agrees with the floor on nonnegative arguments. -/
theorem pyInt_eq_floor (q : ℚ) (h : 0 ≤ q) : pyInt q = ⌊q⌋ := by
  unfold pyInt
  rw [if_neg (not_lt.mpr h)]

/-- The C7 claim about `_prune_low_value_memories`: a no-op returning zero
pruned when the mean reasoning value already meets the target; otherwise
exactly `⌊count · target⌋` items are retained, `count - ⌊count · target⌋`
is reported pruned, nothing is retained when the target count is zero,
every retained entry comes from the input, and every retained entry's
reasoning value dominates every discarded one's. -/
def PruneSpec (memories : Store) (t : ℚ) : Prop :=
  (t ≤ calculate_current_efficiency memories →
    prune_low_value_memories memories t = (memories, 0)) ∧
  (calculate_current_efficiency memories < t →
    (prune_low_value_memories memories t).1.length =
      ⌊(memories.length : ℚ) * t⌋.toNat ∧
    (prune_low_value_memories memories t).2 =
      (memories.length : ℤ) - ⌊(memories.length : ℚ) * t⌋ ∧
    (⌊(memories.length : ℚ) * t⌋.toNat = 0 →
      (prune_low_value_memories memories t).1 = []) ∧
    (∀ p ∈ (prune_low_value_memories memories t).1, p ∈ memories) ∧
    (∀ p ∈ (prune_low_value_memories memories t).1,
      ∀ q ∈ (memories.insertionSort valLE).take
        (memories.length - ⌊(memories.length : ℚ) * t⌋.toNat),
        q.2.reasoning_value ≤ p.2.reasoning_value))

/-- C7: the pruning pass behaves exactly as claimed for every input store
and efficiency target in `[0, 1]`. -/
theorem claim_C7 (memories : Store) (t : ℚ) (h0 : 0 ≤ t) (h1 : t ≤ 1) :
    PruneSpec memories t := by
  constructor
  · intro hge
    unfold prune_low_value_memories
    rw [if_pos hge]
  · intro hlt
    have hnn : (0 : ℚ) ≤ (memories.length : ℚ) * t :=
      mul_nonneg (Nat.cast_nonneg _) h0
    have hfl : pyInt ((memories.length : ℚ) * t) =
        ⌊(memories.length : ℚ) * t⌋ := pyInt_eq_floor _ hnn
    have hf0 : 0 ≤ ⌊(memories.length : ℚ) * t⌋ :=
      Int.floor_nonneg.mpr hnn
    set f := ⌊(memories.length : ℚ) * t⌋ with hfdef
    have htc_le : f.toNat ≤ memories.length := by
      have h2 : (memories.length : ℚ) * t ≤ (memories.length : ℚ) :=
        mul_le_of_le_one_right (Nat.cast_nonneg _) h1
      have h3 : f ≤ (memories.length : ℤ) := by
        calc f ≤ ⌊((memories.length : ℚ))⌋ := Int.floor_le_floor h2
        _ = (memories.length : ℤ) := by
            exact_mod_cast Int.floor_natCast memories.length
      omega
    have hslen : (memories.insertionSort valLE).length = memories.length :=
      List.length_insertionSort _ _
    have hsorted : List.Sorted valLE (memories.insertionSort valLE) :=
      List.sorted_insertionSort valLE memories
    have hperm : List.Perm (memories.insertionSort valLE) memories :=
      List.perm_insertionSort valLE memories
    have hsplit : (memories.insertionSort valLE).take
          (memories.length - f.toNat) ++
        (memories.insertionSort valLE).drop (memories.length - f.toNat) =
        memories.insertionSort valLE := List.take_append_drop _ _
    have hcross : ∀ q ∈ (memories.insertionSort valLE).take
          (memories.length - f.toNat),
        ∀ p ∈ (memories.insertionSort valLE).drop (memories.length - f.toNat),
          valLE q p := by
      have := hsorted
      rw [List.Sorted, ← hsplit, List.pairwise_append] at this
      exact this.2.2
    have hpr : prune_low_value_memories memories t =
        (if 0 < f then
          (memories.insertionSort valLE).drop
            ((memories.insertionSort valLE).length - f.toNat)
        else [],
        (memories.length : ℤ) - f) := by
      unfold prune_low_value_memories
      rw [if_neg (not_le.mpr hlt), hfl]
    rcases Nat.eq_zero_or_pos f.toNat with hz | hpos
    · have hfz : f = 0 := by omega
      rw [hpr, hfz]
      refine ⟨by simp [hz, hfz], by simp, fun _ => by simp, ?_, ?_⟩
      · intro p hp
        simp at hp
      · intro p hp
        simp at hp
    · have hfpos : 0 < f := by omega
      rw [hpr, if_pos hfpos, hslen]
      refine ⟨?_, rfl, ?_, ?_, ?_⟩
      · rw [List.length_drop, hslen]
        omega
      · intro hc
        omega
      · intro p hp
        exact hperm.mem_iff.mp (List.mem_of_mem_drop hp)
      · intro p hp q hq
        exact hcross q hq p hp

/-- Witness for C7 on the empty store with target 1. -/
theorem claim_C7_witness :
    ((0 : ℚ) ≤ 1 ∧ (1 : ℚ) ≤ 1) ∧ PruneSpec [] 1 :=
  ⟨⟨zero_le_one, le_refl 1⟩, claim_C7 [] 1 zero_le_one (le_refl 1)⟩

/-! ### Invariants of the grouping fold -/

/-- Invariant of the `_identify_consolidation_groups` fold state: every
emitted group's members are marked processed, groups are pairwise
disjoint, and every group has at least two members. -/
def StInv (st : List (List String) × List String) : Prop :=
  (∀ g ∈ st.1, ∀ x ∈ g, x ∈ st.2) ∧ st.1.Pairwise GroupsDisjoint ∧
    ∀ g ∈ st.1, 2 ≤ g.length

theorem claimStep_inv (need : ℕ) (st : List (List String) × List String)
    (cand : List String) (h : StInv st) : StInv (claimStep need st cand) := by
  simp only [claimStep]
  split
  · split
    · next h2 =>
      obtain ⟨hmem, hpw, hlen⟩ := h
      have havailNot : ∀ x ∈ cand.filter (fun mid => !(st.2.contains mid)),
          x ∉ st.2 := by
        intro x hx
        have hcond := List.of_mem_filter hx
        simpa using hcond
      refine ⟨?_, ?_, ?_⟩
      · intro g hg x hx
        rcases List.mem_append.mp hg with hg | hg
        · exact List.mem_append_left _ (hmem g hg x hx)
        · rw [List.mem_singleton] at hg
          subst hg
          exact List.mem_append_right _ hx
      · rw [List.pairwise_append]
        refine ⟨hpw, List.pairwise_singleton _ _, ?_⟩
        intro g hg g' hg' x hx
        rw [List.mem_singleton] at hg'
        subst hg'
        intro hxavail
        exact havailNot x hxavail (hmem g hg x hx)
      · intro g hg
        rcases List.mem_append.mp hg with hg | hg
        · exact hlen g hg
        · rw [List.mem_singleton] at hg
          subst hg
          exact h2
    · exact h
  · exact h

theorem foldl_claimStep_inv {X : Type} (need : ℕ) (f : X → List String) :
    ∀ (l : List X) (st : List (List String) × List String), StInv st →
      StInv (l.foldl (fun st x => claimStep need st (f x)) st)
  | [], _, h => h
  | x :: l, st, h =>
    foldl_claimStep_inv need f l _ (claimStep_inv need st (f x) h)

/-- The groups produced by `_identify_consolidation_groups` are pairwise
disjoint and each has at least two members. -/
theorem identify_groups_props (clusters : List (String × List String))
    (chains : List (List String)) :
    (identify_consolidation_groups clusters chains).Pairwise GroupsDisjoint ∧
    ∀ g ∈ identify_consolidation_groups clusters chains, 2 ≤ g.length := by
  have h0 : StInv ([], []) := by
    refine ⟨?_, List.Pairwise.nil, ?_⟩ <;> intro g hg <;> cases hg
  have h1 := foldl_claimStep_inv 3 (fun tc : String × List String => tc.2)
    clusters ([], []) h0
  have h2 := foldl_claimStep_inv 2 (fun c : List String => c) chains _ h1
  exact ⟨h2.2.1, h2.2.2⟩

/-! ### C6: the merged item's reasoning value -/

/-- Every element of a list is bounded by a max-fold over it. -/
theorem le_foldl_max (l : List ℚ) :
    ∀ init : ℚ, init ≤ l.foldl max init ∧ ∀ x ∈ l, x ≤ l.foldl max init := by
  induction l with
  | nil => intro init; exact ⟨le_refl _, by intro x hx; cases hx⟩
  | cons a l ih =>
    intro init
    have h := ih (max init a)
    refine ⟨le_trans (le_max_left _ _) h.1, ?_⟩
    intro x hx
    rcases List.mem_cons.mp hx with rfl | hx
    · exact le_trans (le_max_right _ _) h.1
    · exact h.2 x hx

/-- C6: the synthesized item's `reasoning_value` is exactly
`min(1, average(source values) · 1.2)`, hence at most
`min(1, 1.2 · max(source values))`; and the groups merged in one pass are
pairwise disjoint, so no id is merged twice within a pass. -/
theorem claim_C6 (m : MemoryItem) (ms : List MemoryItem) :
    (consolidate_group (m :: ms)).reasoning_value =
      min 1 (avgReasoningValue (m :: ms) * (12/10)) ∧
    (consolidate_group (m :: ms)).reasoning_value ≤
      min 1 ((12/10) * maxReasoningValue m ms) ∧
    ∀ clusters chains,
      (identify_consolidation_groups clusters chains).Pairwise GroupsDisjoint := by
  have heq : (consolidate_group (m :: ms)).reasoning_value =
      min 1 (avgReasoningValue (m :: ms) * (12/10)) := by
    simp only [consolidate_group, avgReasoningValue]
  refine ⟨heq, ?_, fun clusters chains => (identify_groups_props clusters chains).1⟩
  rw [heq]
  have hmax : ∀ x ∈ (m :: ms).map (fun y => y.reasoning_value),
      x ≤ maxReasoningValue m ms := by
    intro x hx
    simp only [maxReasoningValue]
    rcases List.mem_map.mp hx with ⟨y, hy, rfl⟩
    rcases List.mem_cons.mp hy with hy | hy
    · subst hy
      exact (le_foldl_max (ms.map (fun z => z.reasoning_value))
        y.reasoning_value).1
    · exact (le_foldl_max (ms.map (fun z => z.reasoning_value))
        m.reasoning_value).2 _ (List.mem_map.mpr ⟨y, hy, rfl⟩)
  have hsum : ((m :: ms).map (fun y => y.reasoning_value)).sum ≤
      (((m :: ms).map (fun y => y.reasoning_value)).length : ℚ) *
        maxReasoningValue m ms := by
    have := List.sum_le_card_nsmul ((m :: ms).map (fun y => y.reasoning_value))
      (maxReasoningValue m ms) hmax
    simpa [nsmul_eq_mul] using this
  have hlen : (0 : ℚ) < (((m :: ms)).length : ℚ) := by
    have : 0 < (m :: ms).length := Nat.succ_pos _
    exact_mod_cast this
  have havg : avgReasoningValue (m :: ms) ≤ maxReasoningValue m ms := by
    unfold avgReasoningValue
    rw [div_le_iff₀ hlen]
    simpa [List.length_map, mul_comm] using hsum
  refine min_le_min (le_refl 1) ?_
  nlinarith

/-! ### C5: grouping order and qualification thresholds -/

/-- Five concrete stored items: the term `wwww` clusters items 1–3, the
term `zzzz` clusters items 3–5, and every item has a distinct reasoning
type (so no reasoning chain forms). -/
def itemsC5 : Store :=
  [("m1", ⟨"m1", "wwww analyze", [], 0, 0, 0, 0⟩),
   ("m2", ⟨"m2", "wwww thus", [], 0, 0, 0, 0⟩),
   ("m3", ⟨"m3", "wwww zzzz since", [], 0, 0, 0, 0⟩),
   ("m4", ⟨"m4", "zzzz trend", [], 0, 0, 0, 0⟩),
   ("m5", ⟨"m5", "zzzz", [], 0, 0, 0, 0⟩)]

/-- Counterexample to C5 as stated: on `itemsC5` the source function also
merges the two leftover members of the `zzzz` cluster (raw size 3, only 2
unclaimed), whereas the claim's algorithm (descending-size processing, at
least 3 unclaimed members required) merges only the `wwww` cluster. -/
theorem claim_C5_counterexample :
    identify_consolidation_groups (topic_clusters itemsC5)
        (identify_reasoning_chains itemsC5) =
      [["m1", "m2", "m3"], ["m4", "m5"]] ∧
    identify_consolidation_groups_spec (topic_clusters itemsC5)
        (identify_reasoning_chains itemsC5) =
      [["m1", "m2", "m3"]] := by
  constructor <;> decide

/-- C5 (amended): topic clusters are processed in term insertion order (not
by descending size), and a cluster qualifies when its raw size is ≥ 3 and
at least 2 members remain unclaimed; the emitted group is those remaining
members, so every group produced in a pass has at least 2 members. -/
theorem claim_C5 (clusters : List (String × List String))
    (chains : List (List String)) (g : List String)
    (hg : g ∈ identify_consolidation_groups clusters chains) : 2 ≤ g.length :=
  (identify_groups_props clusters chains).2 g hg

/-- Witness for C5: the 2-element group emitted from the `zzzz` cluster. -/
theorem claim_C5_witness :
    (["m4", "m5"] ∈ identify_consolidation_groups (topic_clusters itemsC5)
      (identify_reasoning_chains itemsC5)) ∧
    2 ≤ (["m4", "m5"] : List String).length :=
  ⟨by decide, claim_C5 (topic_clusters itemsC5)
    (identify_reasoning_chains itemsC5) ["m4", "m5"] (by decide)⟩

/-! ### C8: the diversity filter -/

/-- The relation guaranteed between an earlier-accepted and a
later-accepted scored candidate: the similarity measured from the later
one to the earlier one is at most the 0.8 threshold. -/
def DivRel (a b : Scored) : Prop :=
  semantic_similarity b.1.2.content a.1.2.content ≤ 4/5

/-- The greedy fold of the diversity filter only ever appends candidates
that pass the check against every already-accepted one. -/
theorem foldl_diverse_pairwise :
    ∀ (l acc : List Scored), acc.Pairwise DivRel →
      (l.foldl
        (fun diverse ms =>
          if diverse.all (fun sel =>
              !(decide ((4/5 : ℚ) <
                semantic_similarity ms.1.2.content sel.1.2.content)))
          then diverse ++ [ms] else diverse)
        acc).Pairwise DivRel := by
  intro l
  induction l with
  | nil => intro acc h; exact h
  | cons ms l ih =>
    intro acc h
    simp only [List.foldl_cons]
    split
    · next hall =>
      refine ih _ ?_
      rw [List.pairwise_append]
      refine ⟨h, List.pairwise_singleton _ _, ?_⟩
      intro a ha b hb
      rw [List.mem_singleton] at hb
      subst hb
      have := List.all_eq_true.mp hall a ha
      simp only [Bool.not_eq_true', decide_eq_false_iff_not, not_lt] at this
      exact this
    · exact ih _ h

/-- The diversity filter's output is pairwise diverse. -/
theorem diversity_filter_pairwise (l : List Scored) :
    (apply_diversity_filter l).Pairwise DivRel := by
  unfold apply_diversity_filter
  split
  · next hlen =>
    match l, hlen with
    | [], _ => exact List.Pairwise.nil
    | [a], _ => exact List.pairwise_singleton _ _
  · exact foldl_diverse_pairwise l [] List.Pairwise.nil

/-- C8 (amended): in every retrieval result, for every two returned items
the semantic similarity measured from the later-ranked item to the
earlier-ranked one is at most 0.8 (the source checks only this direction;
the similarity function is asymmetric, so the symmetric claim fails). -/
theorem claim_C8 (fexp flog : ℚ → ℚ) (now : ℚ) (query : String)
    (ctx : List (String × String)) (items : Store) (max_results : ℕ) :
    (retrieve_memories fexp flog now query ctx items max_results).Pairwise
      (fun a b => semantic_similarity b.content a.content ≤ 4/5) := by
  unfold retrieve_memories retrieve_entries
  split
  · exact List.Pairwise.nil
  · refine List.Pairwise.map _ (fun a b h => h) ?_
    refine List.Pairwise.sublist (List.take_sublist _ _) ?_
    unfold apply_retrieval_filters
    exact diversity_filter_pairwise _

/-- Item whose content is the four tokens `alpha x1 x2 s`. -/
def itemA : MemoryItem := ⟨"a", "alpha x1 x2 s", [], 0, 0, 0, 0⟩

/-- Item whose content is the four tokens `alpha x1 x2 bravo`. -/
def itemB : MemoryItem := ⟨"b", "alpha x1 x2 bravo", [], 0, 0, 0, 0⟩

/-- A two-item store exhibiting the asymmetry of the similarity measure. -/
def storeC8 : Store := [("a", itemA), ("b", itemB)]

theorem simQA : semantic_similarity "alpha x1 x2 s" "alpha x1 x2 s" = 1 := by
  have htA : tokenSet "alpha x1 x2 s" = ["alpha", "x1", "x2", "s"] := by decide
  have h1 : ((["alpha", "x1", "x2", "s"] : List String).filter
      (fun t => (["alpha", "x1", "x2", "s"] : List String).contains t)).length
      = 4 := by decide
  have h2 : ((["alpha", "x1", "x2", "s"] : List String) ++
      (["alpha", "x1", "x2", "s"] : List String).filter
        (fun t => !((["alpha", "x1", "x2", "s"] : List String).contains t))).length
      = 4 := by decide
  have h3 : (["alpha", "x1", "x2", "s"] : List String).filter
      (fun t => decide (4 < t.length)) = ["alpha"] := by decide
  have h4 : ((["alpha"] : List String).filter
      (fun t => (["alpha", "x1", "x2", "s"] : List String).contains t)).length
      = 1 := by decide
  simp only [semantic_similarity, htA, h1, h2, h3, h4]
  norm_num [min_def]

theorem simQB :
    semantic_similarity "alpha x1 x2 s" "alpha x1 x2 bravo" = 9/10 := by
  have htA : tokenSet "alpha x1 x2 s" = ["alpha", "x1", "x2", "s"] := by decide
  have htB : tokenSet "alpha x1 x2 bravo" = ["alpha", "x1", "x2", "bravo"] := by
    decide
  have h1 : ((["alpha", "x1", "x2", "s"] : List String).filter
      (fun t => (["alpha", "x1", "x2", "bravo"] : List String).contains t)).length
      = 3 := by decide
  have h2 : ((["alpha", "x1", "x2", "s"] : List String) ++
      (["alpha", "x1", "x2", "bravo"] : List String).filter
        (fun t => !((["alpha", "x1", "x2", "s"] : List String).contains t))).length
      = 5 := by decide
  have h3 : (["alpha", "x1", "x2", "s"] : List String).filter
      (fun t => decide (4 < t.length)) = ["alpha"] := by decide
  have h4 : ((["alpha"] : List String).filter
      (fun t => (["alpha", "x1", "x2", "bravo"] : List String).contains t)).length
      = 1 := by decide
  simp only [semantic_similarity, htA, htB, h1, h2, h3, h4]
  norm_num [min_def]

theorem simBA :
    semantic_similarity "alpha x1 x2 bravo" "alpha x1 x2 s" = 3/4 := by
  have htA : tokenSet "alpha x1 x2 s" = ["alpha", "x1", "x2", "s"] := by decide
  have htB : tokenSet "alpha x1 x2 bravo" = ["alpha", "x1", "x2", "bravo"] := by
    decide
  have h1 : ((["alpha", "x1", "x2", "bravo"] : List String).filter
      (fun t => (["alpha", "x1", "x2", "s"] : List String).contains t)).length
      = 3 := by decide
  have h2 : ((["alpha", "x1", "x2", "bravo"] : List String) ++
      (["alpha", "x1", "x2", "s"] : List String).filter
        (fun t => !((["alpha", "x1", "x2", "bravo"] : List String).contains t))).length
      = 5 := by decide
  have h3 : (["alpha", "x1", "x2", "bravo"] : List String).filter
      (fun t => decide (4 < t.length)) = ["alpha", "bravo"] := by decide
  have h4 : ((["alpha", "bravo"] : List String).filter
      (fun t => (["alpha", "x1", "x2", "s"] : List String).contains t)).length
      = 1 := by decide
  simp only [semantic_similarity, htA, htB, h1, h2, h3, h4]
  norm_num [min_def]

theorem relA : calculate_comprehensive_relevance (fun _ => 0) (fun _ => 0) 0
    "alpha x1 x2 s" [] itemA = 11/20 := by
  simp only [calculate_comprehensive_relevance, itemA, simQA,
    calculate_context_relevance, calculate_recency_factor,
    calculate_frequency_factor]
  norm_num [min_def]

theorem relB : calculate_comprehensive_relevance (fun _ => 0) (fun _ => 0) 0
    "alpha x1 x2 s" [] itemB = 51/100 := by
  simp only [calculate_comprehensive_relevance, itemB, simQB,
    calculate_context_relevance, calculate_recency_factor,
    calculate_frequency_factor]
  norm_num [min_def]

/-- Counterexample to C8 as stated: retrieving with query `alpha x1 x2 s`
from `storeC8` returns both items (the filter checked only
`sim(B→A) = 3/4 ≤ 0.8`), yet the pair's similarity in the other direction
is `sim(A→B) = 9/10 > 0.8`. -/
theorem claim_C8_counterexample :
    retrieve_memories (fun _ => 0) (fun _ => 0) 0 "alpha x1 x2 s" [] storeC8 5 =
      [itemA, itemB] ∧
    (4/5 : ℚ) < semantic_similarity itemA.content itemB.content := by
  have hA : itemA.content = "alpha x1 x2 s" := rfl
  have hB : itemB.content = "alpha x1 x2 bravo" := rfl
  constructor
  · have hge : scoreGE (("a", itemA), (11/20 : ℚ)) (("b", itemB), (51/100 : ℚ)) := by
      show (51/100 : ℚ) ≤ 11/20
      norm_num
    have hd1 : decide ((1/10 : ℚ) ≤ (11/20 : ℚ)) = true := by
      rw [decide_eq_true_eq]; norm_num
    have hd2 : decide ((1/10 : ℚ) ≤ (51/100 : ℚ)) = true := by
      rw [decide_eq_true_eq]; norm_num
    have hd3 : decide ((4/5 : ℚ) < (3/4 : ℚ)) = false := by
      rw [decide_eq_false_iff_not]; norm_num
    unfold retrieve_memories retrieve_entries storeC8
    simp only [List.isEmpty_cons, Bool.false_eq_true, if_false, List.map_cons,
      List.map_nil, relA, relB, List.insertionSort, List.orderedInsert, hge,
      if_true, apply_retrieval_filters, List.filter, hd1, hd2,
      apply_diversity_filter, List.length_cons, List.length_nil, List.foldl,
      List.all_nil, List.all_cons, hB, hA, simBA, hd3, List.take,
      List.append_nil, List.nil_append, List.cons_append]
  · rw [hA, hB, simQB]
    norm_num

/-! ### C1: the capacity invariant -/

/-- Budget enforcement always leaves at most `memory_budget` entries. -/
theorem enforce_memory_budget_le (cfg : Config) (s : Store) :
    (enforce_memory_budget cfg s).length ≤ cfg.memory_budget := by
  unfold enforce_memory_budget
  split
  · next h => exact h
  · next h0 =>
    push_neg at h0
    dsimp only
    set sorted := s.insertionSort valLE with hsorteddef
    set k := s.length - cfg.memory_budget with hk
    set toRemove := (sorted.take k).map Prod.fst with htr
    have hperm : List.Perm sorted s := List.perm_insertionSort valLE s
    have hslen : sorted.length = s.length := hperm.length_eq
    have htk : (sorted.take k).length = k := by
      rw [List.length_take]
      omega
    have hallP : ∀ p ∈ sorted.take k, (toRemove.contains p.1) = true := by
      intro p hp
      exact List.elem_eq_true_of_mem (List.mem_map.mpr ⟨p, hp, rfl⟩)
    have hfilterlen : k ≤ (s.filter (fun p => toRemove.contains p.1)).length := by
      have h1 : List.Perm (sorted.filter (fun p => toRemove.contains p.1))
          (s.filter (fun p => toRemove.contains p.1)) := hperm.filter _
      have h2 : (sorted.take k).filter (fun p => toRemove.contains p.1) =
          sorted.take k := List.filter_eq_self.mpr hallP
      have h3 : List.Sublist
          ((sorted.take k).filter (fun p => toRemove.contains p.1))
          (sorted.filter (fun p => toRemove.contains p.1)) :=
        (List.take_sublist k sorted).filter _
      rw [h2] at h3
      calc k = (sorted.take k).length := htk.symm
      _ ≤ (sorted.filter (fun p => toRemove.contains p.1)).length :=
          h3.length_le
      _ = (s.filter (fun p => toRemove.contains p.1)).length := h1.length_eq
    have hsum : s.length = (s.filter (fun p => toRemove.contains p.1)).length +
        (s.filter (fun p => !(toRemove.contains p.1))).length := by
      simpa using
        List.length_eq_length_filter_add (l := s)
          (fun p => toRemove.contains p.1)
    omega

/-- Immediately after `store_memory` returns, the live count is at most
the configured budget. -/
theorem store_memory_le (cfg : Config) (s : Store) (key content : String)
    (priority now : ℚ) :
    (store_memory cfg s key content priority now).1.length ≤
      cfg.memory_budget := by
  unfold store_memory
  dsimp only
  split
  · exact enforce_memory_budget_le cfg _
  · next h => omega

/-- Dict assignment never removes a key. -/
theorem dictKeys_subset_dictInsert (d : Store) (k : String) (v : MemoryItem) :
    ∀ x ∈ dictKeys d, x ∈ dictKeys (dictInsert d k v) := by
  intro x hx
  unfold dictInsert dictKeys at *
  split
  · obtain ⟨p, hp, hpx⟩ := List.mem_map.mp hx
    refine List.mem_map.mpr ⟨if p.1 = k then (k, v) else p, ?_, ?_⟩
    · exact List.mem_map.mpr ⟨p, hp, rfl⟩
    · split
      · next hpk => rw [← hpx, hpk]
      · exact hpx
  · exact List.mem_map.mpr
      (let ⟨p, hp, hpx⟩ := List.mem_map.mp hx
       ⟨p, List.mem_append_left _ hp, hpx⟩)

/-- A key outside the deleted group survives the group deletion. -/
theorem dictKeys_mem_filter_of_not_mem (acc : Store) (g : List String)
    (x : String) (hx : x ∈ dictKeys acc) (hxg : x ∉ g) :
    x ∈ dictKeys (acc.filter (fun p => !(g.contains p.1))) := by
  obtain ⟨p, hp, hpx⟩ := List.mem_map.mp hx
  refine List.mem_map.mpr ⟨p, List.mem_filter.mpr ⟨hp, ?_⟩, hpx⟩
  cases hc : g.contains p.1 with
  | true => exact absurd (hpx ▸ List.mem_of_elem_eq_true hc) hxg
  | false => simp

/-- Deleting the (present, nonempty) group then inserting the merged item
cannot grow the store. -/
theorem delete_insert_le (acc : Store) (g : List String) (x : String)
    (hxg : x ∈ g) (hx : x ∈ dictKeys acc) (v : MemoryItem) (cid : String) :
    (dictInsert (acc.filter (fun p => !(g.contains p.1))) cid v).length ≤
      acc.length := by
  have hpresent : 1 ≤ (acc.filter (fun p => g.contains p.1)).length := by
    obtain ⟨p, hp, hpx⟩ := List.mem_map.mp hx
    have : p ∈ acc.filter (fun p => g.contains p.1) :=
      List.mem_filter.mpr ⟨hp, List.elem_eq_true_of_mem (hpx ▸ hxg)⟩
    calc 1 = [p].length := rfl
    _ ≤ _ := List.Sublist.length_le
        (List.singleton_sublist.mpr this)
  have hsum : acc.length = (acc.filter (fun p => g.contains p.1)).length +
      (acc.filter (fun p => !(g.contains p.1))).length := by
    simpa using
      List.length_eq_length_filter_add (l := acc) (fun p => g.contains p.1)
  have hins := dictInsert_length_le
    (acc.filter (fun p => !(g.contains p.1))) cid v
  omega

/-- The `_perform_consolidation` fold never grows the store, provided the
groups are pairwise disjoint and all their members are present keys. -/
theorem perform_consolidation_fold_le (items : Store) :
    ∀ (groups : List (List String)) (acc : Store),
      groups.Pairwise GroupsDisjoint →
      (∀ g ∈ groups, ∀ x ∈ g, x ∈ dictKeys acc) →
      (groups.foldl
        (fun acc group =>
          if group.length < 2 then acc
          else
            let merged := consolidate_group (group.filterMap (lookupItem items))
            let acc2 := acc.filter (fun p => !(group.contains p.1))
            dictInsert acc2 ("consolidated_" ++ toString acc2.length) merged)
        acc).length ≤ acc.length := by
  intro groups
  induction groups with
  | nil => intro acc _ _; exact le_refl _
  | cons g gs ih =>
    intro acc hdis hsub
    simp only [List.foldl_cons]
    split
    · exact ih acc hdis.of_cons (fun g' hg' => hsub g' (List.mem_cons_of_mem _ hg'))
    · next hglen =>
      have hg2 : 2 ≤ g.length := by omega
      have hgne : g ≠ [] := by
        intro hnil
        rw [hnil] at hg2
        simp at hg2
      obtain ⟨x, hxg⟩ := List.exists_mem_of_ne_nil g hgne
      have hx : x ∈ dictKeys acc := hsub g (List.mem_cons_self _ _) x hxg
      have hdel := delete_insert_le acc g x hxg hx
        (consolidate_group (g.filterMap (lookupItem items)))
        ("consolidated_" ++
          toString (acc.filter (fun p => !(g.contains p.1))).length)
      refine le_trans (ih _ hdis.of_cons ?_) hdel
      intro g' hg' y hy
      have hyacc : y ∈ dictKeys acc :=
        hsub g' (List.mem_cons_of_mem _ hg') y hy
      have hyng : y ∉ g := by
        intro hyg
        exact (List.rel_of_pairwise_cons hdis hg') y hyg hy
      exact dictKeys_subset_dictInsert _ _ _ y
        (dictKeys_mem_filter_of_not_mem acc g y hyacc hyng)

/-- Invariant: every group member produced so far satisfies `P`. -/
def StInvK (P : String → Prop) (st : List (List String) × List String) : Prop :=
  ∀ g ∈ st.1, ∀ x ∈ g, P x

theorem claimStep_invK {P : String → Prop} (need : ℕ)
    (st : List (List String) × List String) (cand : List String)
    (hc : ∀ x ∈ cand, P x) (h : StInvK P st) :
    StInvK P (claimStep need st cand) := by
  simp only [claimStep]
  split
  · split
    · intro g hg x hx
      rcases List.mem_append.mp hg with hg | hg
      · exact h g hg x hx
      · rw [List.mem_singleton] at hg
        subst hg
        exact hc x (List.mem_of_mem_filter hx)
    · exact h
  · exact h

theorem foldl_claimStep_invK {X : Type} {P : String → Prop} (need : ℕ)
    (f : X → List String) :
    ∀ (l : List X) (st : List (List String) × List String),
      (∀ x ∈ l, ∀ y ∈ f x, P y) → StInvK P st →
      StInvK P (l.foldl (fun st x => claimStep need st (f x)) st)
  | [], _, _, h => h
  | x :: l, st, hl, h =>
    foldl_claimStep_invK need f l _
      (fun x' hx' => hl x' (List.mem_cons_of_mem _ hx'))
      (claimStep_invK need st (f x) (hl x (List.mem_cons_self _ _)) h)

/-- Adding an id to a multimap preserves a per-id predicate. -/
theorem multiDictAdd_sub {P : String → Prop}
    (d : List (String × List String)) (k v : String)
    (hd : ∀ tc ∈ d, ∀ x ∈ tc.2, P x) (hv : P v) :
    ∀ tc ∈ multiDictAdd d k v, ∀ x ∈ tc.2, P x := by
  unfold multiDictAdd
  split
  · intro tc htc x hx
    rcases List.mem_map.mp htc with ⟨p, hp, hptc⟩
    by_cases hpk : p.1 = k
    · rw [if_pos hpk] at hptc
      rw [← hptc] at hx
      rcases List.mem_append.mp hx with hx | hx
      · exact hd p hp x hx
      · rw [List.mem_singleton] at hx
        subst hx
        exact hv
    · rw [if_neg hpk] at hptc
      rw [← hptc] at hx
      exact hd p hp x hx
  · intro tc htc x hx
    rcases List.mem_append.mp htc with htc | htc
    · exact hd tc htc x hx
    · rw [List.mem_singleton] at htc
      subst htc
      rw [List.mem_singleton] at hx
      subst hx
      exact hv

theorem foldl_multiDictAdd_terms_sub {P : String → Prop}
    (v : String) (hv : P v) :
    ∀ (terms : List String) (acc : List (String × List String)),
      (∀ tc ∈ acc, ∀ x ∈ tc.2, P x) →
      ∀ tc ∈ terms.foldl (fun a term => multiDictAdd a term v) acc,
        ∀ x ∈ tc.2, P x
  | [], _, h => h
  | t :: terms, acc, h =>
    foldl_multiDictAdd_terms_sub v hv terms _ (multiDictAdd_sub acc t v h hv)

/-- Every id in a topic cluster is a key of the store it was built from. -/
theorem topic_clusters_sub (items : Store) :
    ∀ tc ∈ topic_clusters items, ∀ x ∈ tc.2, x ∈ dictKeys items := by
  unfold topic_clusters
  suffices haux : ∀ (l : List (String × MemoryItem))
      (acc : List (String × List String)),
      (∀ tc ∈ acc, ∀ x ∈ tc.2, x ∈ dictKeys items) →
      (∀ p ∈ l, p.1 ∈ dictKeys items) →
      ∀ tc ∈ l.foldl
        (fun acc p =>
          (extract_key_terms p.2.content).foldl
            (fun a term => multiDictAdd a term p.1) acc) acc,
        ∀ x ∈ tc.2, x ∈ dictKeys items by
    refine haux items [] (by intro tc htc; cases htc) ?_
    intro p hp
    exact List.mem_map.mpr ⟨p, hp, rfl⟩
  intro l
  induction l with
  | nil => intro acc h _; exact h
  | cons p l ih =>
    intro acc h hl
    refine ih _ ?_ (fun p' hp' => hl p' (List.mem_cons_of_mem _ hp'))
    exact foldl_multiDictAdd_terms_sub p.1 (hl p (List.mem_cons_self _ _))
      (extract_key_terms p.2.content) acc h

/-- Every id in a reasoning chain is a key of the store. -/
theorem reasoning_chains_sub (items : Store) :
    ∀ ch ∈ identify_reasoning_chains items, ∀ x ∈ ch, x ∈ dictKeys items := by
  unfold identify_reasoning_chains
  suffices haux : ∀ (l : List (String × MemoryItem))
      (acc : List (String × List String)),
      (∀ tc ∈ acc, ∀ x ∈ tc.2, x ∈ dictKeys items) →
      (∀ p ∈ l, p.1 ∈ dictKeys items) →
      ∀ tc ∈ l.foldl
        (fun acc p => multiDictAdd acc (classify_reasoning_type p.2.content) p.1)
        acc,
        ∀ x ∈ tc.2, x ∈ dictKeys items by
    intro ch hch x hx
    dsimp only at hch
    rcases List.mem_map.mp hch with ⟨tc, htc, htcch⟩
    have htc' := List.mem_of_mem_filter htc
    have := haux items [] (by intro tc htc0; cases htc0)
      (fun p hp => List.mem_map.mpr ⟨p, hp, rfl⟩) tc htc'
    exact this x (htcch ▸ hx)
  intro l
  induction l with
  | nil => intro acc h _; exact h
  | cons p l ih =>
    intro acc h hl
    refine ih _ ?_ (fun p' hp' => hl p' (List.mem_cons_of_mem _ hp'))
    exact multiDictAdd_sub acc _ p.1 h (hl p (List.mem_cons_self _ _))

/-- Every member of every identified consolidation group is a key of the
store. -/
theorem identify_groups_sub (items : Store) :
    ∀ g ∈ identify_consolidation_groups (topic_clusters items)
        (identify_reasoning_chains items),
      ∀ x ∈ g, x ∈ dictKeys items := by
  have h0 : StInvK (· ∈ dictKeys items) ([], []) := by
    intro g hg; cases hg
  have h1 := foldl_claimStep_invK (P := (· ∈ dictKeys items)) 3
    (fun tc : String × List String => tc.2) (topic_clusters items) ([], [])
    (fun tc htc y hy => topic_clusters_sub items tc htc y hy) h0
  have h2 := foldl_claimStep_invK (P := (· ∈ dictKeys items)) 2
    (fun c : List String => c) (identify_reasoning_chains items) _
    (fun ch hch y hy => reasoning_chains_sub items ch hch y hy) h1
  exact h2

/-- Pruning never grows the store. -/
theorem prune_le (memories : Store) (t : ℚ) :
    (prune_low_value_memories memories t).1.length ≤ memories.length := by
  unfold prune_low_value_memories
  dsimp only
  split
  · exact le_refl _
  · dsimp only
    split
    · calc ((memories.insertionSort valLE).drop _).length ≤
          (memories.insertionSort valLE).length :=
            (List.drop_sublist _ _).length_le
      _ = memories.length := List.length_insertionSort _ _
    · simp

/-- A consolidation pass never grows the store. -/
theorem consolidate_memories_le (s : Store) (t : ℚ) :
    (consolidate_memories s t).updated_memories.length ≤ s.length := by
  unfold consolidate_memories
  split
  · simp
  · dsimp only
    refine le_trans (prune_le _ _) ?_
    unfold perform_consolidation
    exact perform_consolidation_fold_le s _ s
      (identify_groups_props _ _).1 (identify_groups_sub s)

/-- The access-count update of a retrieval leaves the count unchanged. -/
theorem retrieve_relevant_memories_length (fexp flog : ℚ → ℚ) (now : ℚ)
    (query : String) (ctx : List (String × String)) (s : Store)
    (max_results : ℕ) :
    (retrieve_relevant_memories fexp flog now query ctx s max_results).length =
      s.length := by
  unfold retrieve_relevant_memories
  exact List.length_map _ _

/-- C1: starting from a fresh manager with a positive budget, after every
operation of any sequence of `put`, `consolidate`, `retrieve` and `reset`
calls the live item count is at most `memory_budget` (in particular
immediately after every `put` and every `consolidate`). -/
theorem claim_C1 (cfg : Config) (fexp flog : ℚ → ℚ) (ops : List Op)
    (_hbudget : 0 < cfg.memory_budget) :
    (run cfg fexp flog ops).length ≤ cfg.memory_budget := by
  suffices haux : ∀ (ops : List Op) (s : Store),
      s.length ≤ cfg.memory_budget →
      (ops.foldl (step cfg fexp flog) s).length ≤ cfg.memory_budget by
    exact haux ops [] (by simp)
  intro ops
  induction ops with
  | nil => intro s hs; exact hs
  | cons op ops ih =>
    intro s hs
    rw [List.foldl_cons]
    refine ih _ ?_
    cases op with
    | put key content priority now => exact store_memory_le cfg s key content priority now
    | consolidate => exact le_trans (consolidate_memories_le s _) hs
    | retrieve query ctx max_results now =>
      rw [show step cfg fexp flog s (Op.retrieve query ctx max_results now) =
        retrieve_relevant_memories fexp flog now query ctx s max_results from rfl,
        retrieve_relevant_memories_length]
      exact hs
    | reset => exact Nat.zero_le _

/-- Witness for C1: budget 1, two puts and a consolidation. -/
theorem claim_C1_witness :
    0 < (Config.mk 1 (1/2)).memory_budget ∧
      (run ⟨1, 1/2⟩ (fun _ => 0) (fun _ => 0)
        [Op.put "k" "c" 1 0, Op.put "k2" "c2" 1 0, Op.consolidate]).length ≤
        (Config.mk 1 (1/2)).memory_budget :=
  ⟨by decide, claim_C1 ⟨1, 1/2⟩ (fun _ => 0) (fun _ => 0)
    [Op.put "k" "c" 1 0, Op.put "k2" "c2" 1 0, Op.consolidate] (by decide)⟩

/-! ### C4: the reasoning-value bound -/

/-- Membership after dict assignment: an old entry or the new one. -/
theorem mem_dictInsert (d : Store) (k : String) (v : MemoryItem)
    (p : String × MemoryItem) (hp : p ∈ dictInsert d k v) :
    p ∈ d ∨ p = (k, v) := by
  unfold dictInsert at hp
  split at hp
  · rcases List.mem_map.mp hp with ⟨q, hq, hqp⟩
    by_cases hqk : q.1 = k
    · rw [if_pos hqk] at hqp
      exact Or.inr hqp.symm
    · rw [if_neg hqk] at hqp
      exact Or.inl (hqp ▸ hq)
  · rcases List.mem_append.mp hp with hp | hp
    · exact Or.inl hp
    · rw [List.mem_singleton] at hp
      exact Or.inr hp

/-- Filtering preserves the value bound. -/
theorem valbound_filter (s : Store) (f : String × MemoryItem → Bool)
    (h : ValBound s) : ValBound (s.filter f) :=
  fun p hp => h p (List.mem_of_mem_filter hp)

/-- Budget enforcement preserves the value bound. -/
theorem valbound_enforce (cfg : Config) (s : Store) (h : ValBound s) :
    ValBound (enforce_memory_budget cfg s) := by
  unfold enforce_memory_budget
  split
  · exact h
  · exact valbound_filter s _ h

/-- `store_memory` preserves the value bound when the priority is in
`[0, 1]`. -/
theorem valbound_store_memory (cfg : Config) (s : Store) (key content : String)
    (priority now : ℚ) (h0 : 0 ≤ priority) (_h1 : priority ≤ 1)
    (h : ValBound s) : ValBound (store_memory cfg s key content priority now).1 := by
  have hins : ValBound (dictInsert s key
      { id := key, content := content, context := [],
        reasoning_value := assess_reasoning_value content priority,
        timestamp := now, access_count := 0, last_accessed := 0 }) := by
    intro p hp
    rcases mem_dictInsert _ _ _ p hp with hp | hp
    · exact h p hp
    · rw [hp]
      exact assess_bounds content priority h0
  unfold store_memory
  dsimp only
  split
  · exact valbound_enforce cfg _ hins
  · exact hins

/-- The merged item's value lies in `[0, 1]` when the sources' values are
nonnegative. -/
theorem consolidate_group_bound (mems : List MemoryItem)
    (h : ∀ m ∈ mems, 0 ≤ m.reasoning_value) :
    0 ≤ (consolidate_group mems).reasoning_value ∧
      (consolidate_group mems).reasoning_value ≤ 1 := by
  unfold consolidate_group
  dsimp only
  constructor
  · refine le_min zero_le_one ?_
    have hsum : 0 ≤ (mems.map (fun m => m.reasoning_value)).sum := by
      refine List.sum_nonneg ?_
      intro x hx
      rcases List.mem_map.mp hx with ⟨m, hm, rfl⟩
      exact h m hm
    positivity
  · exact min_le_left _ _

/-- Looked-up group members come from the store. -/
theorem lookupItem_mem (items : Store) (k : String) (m : MemoryItem)
    (h : lookupItem items k = some m) : ∃ p ∈ items, p.2 = m := by
  unfold lookupItem at h
  rcases Option.map_eq_some'.mp h with ⟨p, hfind, rfl⟩
  exact ⟨p, List.mem_of_find?_eq_some hfind, rfl⟩

/-- The `_perform_consolidation` fold preserves the value bound. -/
theorem valbound_perform_fold (items : Store) (hitems : ValBound items) :
    ∀ (groups : List (List String)) (acc : Store), ValBound acc →
      ValBound (groups.foldl
        (fun acc group =>
          if group.length < 2 then acc
          else
            let merged := consolidate_group (group.filterMap (lookupItem items))
            let acc2 := acc.filter (fun p => !(group.contains p.1))
            dictInsert acc2 ("consolidated_" ++ toString acc2.length) merged)
        acc)
  | [], acc, h => h
  | g :: gs, acc, h => by
    rw [List.foldl_cons]
    split
    · exact valbound_perform_fold items hitems gs acc h
    · refine valbound_perform_fold items hitems gs _ ?_
      intro p hp
      rcases mem_dictInsert _ _ _ p hp with hp | hp
      · exact valbound_filter acc _ h p hp
      · rw [hp]
        dsimp only
        have hbound := consolidate_group_bound
          (g.filterMap (lookupItem items)) ?_
        · exact hbound
        · intro m hm
          rcases List.mem_filterMap.mp hm with ⟨k, _, hlook⟩
          rcases lookupItem_mem items k m hlook with ⟨q, hq, hqm⟩
          exact hqm ▸ (hitems q hq).1

/-- Pruning preserves the value bound. -/
theorem valbound_prune (memories : Store) (t : ℚ) (h : ValBound memories) :
    ValBound (prune_low_value_memories memories t).1 := by
  unfold prune_low_value_memories
  dsimp only
  split
  · exact h
  · split
    · intro p hp
      have hmem : p ∈ memories.insertionSort valLE := List.mem_of_mem_drop hp
      exact h p ((List.perm_insertionSort valLE memories).mem_iff.mp hmem)
    · intro p hp
      cases hp

/-- A consolidation pass preserves the value bound. -/
theorem valbound_consolidate (s : Store) (t : ℚ) (h : ValBound s) :
    ValBound (consolidate_memories s t).updated_memories := by
  unfold consolidate_memories
  split
  · intro p hp
    cases hp
  · dsimp only
    refine valbound_prune _ _ ?_
    unfold perform_consolidation
    exact valbound_perform_fold s h _ s h

/-- Retrieval changes no entry's key or reasoning value. -/
theorem retrieve_values_eq (fexp flog : ℚ → ℚ) (now : ℚ) (query : String)
    (ctx : List (String × String)) (s : Store) (max_results : ℕ) :
    (retrieve_relevant_memories fexp flog now query ctx s max_results).map
      (fun p => (p.1, p.2.reasoning_value)) =
    s.map (fun p => (p.1, p.2.reasoning_value)) := by
  unfold retrieve_relevant_memories
  rw [List.map_map]
  refine List.map_congr_left ?_
  intro p _
  dsimp only [Function.comp]
  split <;> rfl

/-- Retrieval preserves the value bound. -/
theorem valbound_retrieve (fexp flog : ℚ → ℚ) (now : ℚ) (query : String)
    (ctx : List (String × String)) (s : Store) (max_results : ℕ)
    (h : ValBound s) :
    ValBound (retrieve_relevant_memories fexp flog now query ctx s max_results) := by
  unfold retrieve_relevant_memories
  intro p hp
  rcases List.mem_map.mp hp with ⟨q, hq, rfl⟩
  dsimp only
  split
  · exact h q hq
  · exact h q hq

/-- C4: when every `put` supplies a priority in `[0, 1]`, every live
item's reasoning value lies in `[0, 1]` after every operation of any
sequence of `put`, `consolidate`, `retrieve` and `reset` calls; moreover
retrieval never changes any entry's reasoning value. -/
theorem claim_C4 (cfg : Config) (fexp flog : ℚ → ℚ) (ops : List Op)
    (h : ∀ op ∈ ops, validPut op) :
    ValBound (run cfg fexp flog ops) ∧
    ∀ (s : Store) (query : String) (ctx : List (String × String))
      (max_results : ℕ) (now : ℚ),
      (retrieve_relevant_memories fexp flog now query ctx s max_results).map
        (fun p => (p.1, p.2.reasoning_value)) =
      s.map (fun p => (p.1, p.2.reasoning_value)) := by
  refine ⟨?_, fun s query ctx max_results now =>
    retrieve_values_eq fexp flog now query ctx s max_results⟩
  suffices haux : ∀ (ops : List Op) (s : Store),
      (∀ op ∈ ops, validPut op) → ValBound s →
      ValBound (ops.foldl (step cfg fexp flog) s) by
    exact haux ops [] h (fun p hp => by cases hp)
  intro ops
  induction ops with
  | nil => intro s _ hs; exact hs
  | cons op ops ih =>
    intro s hops hs
    rw [List.foldl_cons]
    refine ih _ (fun op' hop' => hops op' (List.mem_cons_of_mem _ hop')) ?_
    have hop := hops op (List.mem_cons_self _ _)
    cases op with
    | put key content priority now =>
      exact valbound_store_memory cfg s key content priority now
        hop.1 hop.2 hs
    | consolidate => exact valbound_consolidate s _ hs
    | retrieve query ctx max_results now =>
      exact valbound_retrieve fexp flog now query ctx s max_results hs
    | reset => intro p hp; cases hp

/-- Witness for C4: one valid put. -/
theorem claim_C4_witness :
    (∀ op ∈ [Op.put "k" "c" 1 0], validPut op) ∧
      (ValBound (run ⟨2, 1/2⟩ (fun _ => 0) (fun _ => 0) [Op.put "k" "c" 1 0]) ∧
      ∀ (s : Store) (query : String) (ctx : List (String × String))
        (max_results : ℕ) (now : ℚ),
        (retrieve_relevant_memories (fun _ => (0 : ℚ)) (fun _ => (0 : ℚ)) now
            query ctx s max_results).map
          (fun p => (p.1, p.2.reasoning_value)) =
        s.map (fun p => (p.1, p.2.reasoning_value))) :=
  have hput : ∀ op ∈ [Op.put "k" "c" 1 0], validPut op := by
    intro op hop
    rw [List.mem_singleton] at hop
    subst hop
    exact ⟨zero_le_one, le_refl 1⟩
  ⟨hput, claim_C4 ⟨2, 1/2⟩ (fun _ => 0) (fun _ => 0) [Op.put "k" "c" 1 0] hput⟩

end MemSys
